import Mathlib

/-!
Verification of the hybrid retrieval and re-ranking pipeline of
`advanced_rag.py` (class `AdvancedRAG`).

External services (the sentence embedder, the ChromaDB vector store, the
cross-encoder and the Ollama generative client) are modelled as oracle
parameters: a collection carries the outcome of its dense query and of its
full scan (`none` models a raised exception, caught by the code), the
cross-encoder is an optional scoring function (`none` models a model
failure), and the generative services are functions returning `Option`
(`none` models a call or parse failure). Scores are rationals.
-/

namespace AdvancedRAG

/-- Document chunk with metadata (`advanced_rag.py`, `Document` dataclass).
The `embedding` field is never read by the pipeline logic and is omitted. -/
structure Document where
  id : String
  content : String
  metadata : List (String × String)
  score : Rat
  deriving DecidableEq, Repr

/-- One dense hit as returned by `collection.query`: id, content, metadata
and cosine distance. -/
structure DenseHit where
  id : String
  content : String
  metadata : List (String × String)
  distance : Rat
  deriving DecidableEq, Repr

/-- One stored record as returned by `collection.get`. -/
structure StoredDoc where
  id : String
  content : String
  metadata : List (String × String)
  deriving DecidableEq, Repr

/-- A ChromaDB collection, seen through the two operations the pipeline
performs on it.  `none` models the operation raising an exception. -/
structure Collection where
  denseOutcome : Option (List DenseHit)
  getAllOutcome : Option (List StoredDoc)
  deriving DecidableEq

/-- Whitespace splitter: Python `str.split()` on a character list, dropping
empty fields.  The accumulator holds the current (reversed) token. -/
def splitWSAux : List Char → List Char → List (List Char)
  | [], acc => if acc = [] then [] else [acc.reverse]
  | c :: cs, acc =>
    if c.isWhitespace then
      if acc = [] then splitWSAux cs [] else acc.reverse :: splitWSAux cs []
    else splitWSAux cs (c :: acc)

/-- `s.lower().split()`: lower-cased whitespace tokens of a string. -/
def lowerTokens (s : String) : List (List Char) :=
  splitWSAux (s.toList.map Char.toLower) []

/-- `set(s.lower().split())`: the term set of a string. -/
def termSet (s : String) : Finset (List Char) :=
  (lowerTokens s).toFinset

/-- Jaccard similarity computed inline in `_keyword_search`:
`len(intersection) / len(union) if union else 0`. -/
def keywordScore (query doc : String) : Rat :=
  if termSet query ∪ termSet doc = ∅ then 0
  else ((termSet query ∩ termSet doc).card : Rat) / ((termSet query ∪ termSet doc).card : Rat)

/-- The descending-score ordering used by
`sorted(results, key=lambda x: x.score, reverse=True)`. -/
def scoreGE (a b : Document) : Prop := b.score ≤ a.score

instance : DecidableRel scoreGE := fun a b =>
  inferInstanceAs (Decidable (b.score ≤ a.score))

instance : IsTotal Document scoreGE :=
  ⟨fun a b => (le_total b.score a.score).elim Or.inl Or.inr⟩

instance : IsTrans Document scoreGE :=
  ⟨fun _ _ _ h1 h2 => le_trans h2 h1⟩

/-- Python `sorted(key=lambda x: x.score, reverse=True)`: a stable sort by
descending score. -/
def sortByScoreDesc (l : List Document) : List Document :=
  l.insertionSort scoreGE

/-- Iterate over `self.collections` accumulating per-collection results, as
each `for collection_name, collection in self.collections.items()` loop does. -/
def collectAll (f : Collection → List Document) : List Collection → List Document
  | [] => []
  | c :: cs => f c ++ collectAll f cs

/-- Step 1 of `hybrid_search`: dense retrieval.  A raised exception in a
collection is caught and contributes nothing; a hit at distance `d` becomes
a `Document` with score `1 - d`. -/
def denseStage (cols : List Collection) : List Document :=
  collectAll
    (fun c =>
      match c.denseOutcome with
      | none => []
      | some hits => hits.map fun h => ⟨h.id, h.content, h.metadata, 1 - h.distance⟩)
    cols

/-- The candidate pool of `_keyword_search`: every stored document of every
collection, scored by `keywordScore`, kept only when the score is strictly
positive; a failing collection contributes nothing. -/
def lexicalCandidates (cols : List Collection) (query : String) : List Document :=
  collectAll
    (fun c =>
      match c.getAllOutcome with
      | none => []
      | some ds =>
        (ds.map fun d =>
          (⟨d.id, d.content, d.metadata, keywordScore query d.content⟩ : Document)).filter
          fun d => decide (0 < d.score))
    cols

/-- `_keyword_search`: score all documents, keep the positives, sort by
descending score, return the top `k`. -/
def keyword_search (cols : List Collection) (query : String) (k : Nat) : List Document :=
  (sortByScoreDesc (lexicalCandidates cols query)).take k

/-- The `seen`-set loop of `_deduplicate_results`. -/
def deduplicateAux : List Document → List String → List Document
  | [], _ => []
  | d :: rest, seen =>
    if d.id ∈ seen then deduplicateAux rest seen
    else d :: deduplicateAux rest (d.id :: seen)

/-- `_deduplicate_results`: keep the first occurrence of each document id. -/
def deduplicate_results (l : List Document) : List Document :=
  deduplicateAux l []

/-- The in-place update `doc.score = float(score)` performed by
`_rerank_results` for the cross-encoder score of `(query, doc.content)`. -/
def updateScore (f : String → String → Rat) (query : String) (d : Document) : Document :=
  { d with score := f query d.content }

/-- `_rerank_results`: empty input is returned at once; a cross-encoder
failure (`ce = none`) returns the input unchanged; otherwise every score is
overwritten with the cross-encoder value and the list is sorted by
descending score. -/
def rerank_results (ce : Option (String → String → Rat)) (query : String)
    (documents : List Document) : List Document :=
  if documents.isEmpty then documents
  else
    match ce with
    | none => documents
    | some f => sortByScoreDesc (documents.map (updateScore f query))

/-- `hybrid_search`: dense results, then lexical results, deduplicated by id,
re-ranked, truncated to `k`. -/
def hybrid_search (cols : List Collection) (ce : Option (String → String → Rat))
    (query : String) (k : Nat) : List Document :=
  (rerank_results ce query
    (deduplicate_results (denseStage cols ++ keyword_search cols query k))).take k

/-- Python `str.strip()`: drop leading and trailing whitespace. -/
def stripStr (s : String) : String :=
  ⟨((s.toList.dropWhile Char.isWhitespace).reverse.dropWhile Char.isWhitespace).reverse⟩

/-- Python slicing `text[:n]`: the first `n` characters. -/
def pySlice (s : String) (n : Nat) : String :=
  ⟨s.toList.take n⟩

/-- `query_expansion`: ask the generative service (an oracle mapping the
query to an optional response) for extra terms; on failure return the query
unchanged, on success return `f"{query} {expanded_terms}"` where the terms
are the stripped response. -/
def query_expansion (svc : String → Option String) (query : String) : String :=
  match svc query with
  | none => query
  | some resp => query ++ " " ++ stripStr resp

/-- The parsed JSON dictionary returned by `chain_of_thought_reasoning`:
each schema key may be present or absent. -/
structure Verdict where
  reasoning_steps : Option (List String)
  applicable_regulations : Option (List String)
  compliance_status : Option String
  issues : Option (List String)
  recommendations : Option (List String)
  confidence : Option Rat
  deriving DecidableEq

/-- The literal fallback dictionary returned by `chain_of_thought_reasoning`
when the generation or the JSON parse raises: it has no
`applicable_regulations` key. -/
def fallbackVerdict : Verdict where
  reasoning_steps := some ["Error in analysis"]
  applicable_regulations := none
  compliance_status := some "review_required"
  issues := some ["Manual review needed"]
  recommendations := some ["Consult legal expert"]
  confidence := some 0

/-- `chain_of_thought_reasoning`: the oracle maps (query, context) to the
parsed verdict, `none` modelling a service or parse failure, answered by the
fallback dictionary. -/
def chain_of_thought_reasoning (svc : String → String → Option Verdict)
    (query context : String) : Verdict :=
  match svc query context with
  | some v => v
  | none => fallbackVerdict

/-- The result dictionary built by `validate_document`. -/
structure ValidationResult where
  document_type : String
  compliance_status : String
  issues : List String
  recommendations : List String
  applicable_regulations : List String
  confidence : Rat
  sources : List String
  deriving DecidableEq

/-- The base query `f"ADGM requirements for {document_type}"` of
`validate_document`. -/
def validationQuery (document_type : String) : String :=
  "ADGM requirements for " ++ document_type

/-- The retrieval step of `validate_document`: hybrid search with `k = 10`
over the expanded query. -/
def validateRetrieved (expSvc : String → Option String) (cols : List Collection)
    (ce : Option (String → String → Rat)) (document_type : String) : List Document :=
  hybrid_search cols ce (query_expansion expSvc (validationQuery document_type)) 10

/-- `validate_document`: expand the query, retrieve, build the context from
the top 5 documents, analyse, and read each schema key with a `.get`
default. -/
def validate_document (expSvc : String → Option String)
    (cotSvc : String → String → Option Verdict) (cols : List Collection)
    (ce : Option (String → String → Rat))
    (document_text document_type : String) : ValidationResult :=
  let relevant_docs := validateRetrieved expSvc cols ce document_type
  let context := String.intercalate "\n\n" ((relevant_docs.take 5).map Document.content)
  let analysis := chain_of_thought_reasoning cotSvc
    ("Validate this " ++ document_type ++ ": " ++ pySlice document_text 1000) context
  { document_type := document_type
    compliance_status := analysis.compliance_status.getD "review_required"
    issues := analysis.issues.getD []
    recommendations := analysis.recommendations.getD []
    applicable_regulations := analysis.applicable_regulations.getD []
    confidence := analysis.confidence.getD 0
    sources := (relevant_docs.take 3).map fun d => (d.metadata.lookup "source").getD "Unknown" }

/-! Concrete instances used to exercise the pipeline on explicit inputs. -/

/-- An expansion service that always returns the terms `"extra"`. -/
def c2exp : String → Option String := fun _ => some "extra"

/-- A cross-encoder whose score depends on the query: it distinguishes the
expanded validation query for document type `"X"` from every other query. -/
def c2ce : String → String → Rat :=
  fun q _ => if q = "ADGM requirements for X extra" then 7 else 3

/-- One collection holding a single dense hit `d1` at distance 0, with an
empty full scan. -/
def c2cols : List Collection := [⟨some [⟨"d1", "c", [], 0⟩], some []⟩]

/-- A constant cross-encoder. -/
def c4f : String → String → Rat := fun _ _ => 5

/-- A one-document input list for re-ranking. -/
def c4docs : List Document := [⟨"a", "x", [], 0⟩]

/-- One collection with a single dense hit `d1` and an empty full scan. -/
def c6cols : List Collection := [⟨some [⟨"d1", "dense copy", [], 0⟩], some []⟩]

/-- One collection whose full scan holds a single document matching the
query `"shall"` lexically, with no dense hits. -/
def c7cols : List Collection := [⟨some [], some [⟨"d1", "ADGM shall", []⟩]⟩]

/-- A parsed verdict with every key the validator reads missing. -/
def c10v : Verdict := ⟨some [], none, none, none, none, none⟩

/-! General lemmas about the sorting, deduplication and re-ranking stages. -/

theorem sortByScoreDesc_perm (l : List Document) : (sortByScoreDesc l).Perm l :=
  List.perm_insertionSort scoreGE l

theorem sortByScoreDesc_sorted (l : List Document) : List.Sorted scoreGE (sortByScoreDesc l) :=
  List.sorted_insertionSort scoreGE l

/-- Stability of the descending sort: the subsequence of documents carrying
any fixed score is unchanged by sorting. -/
theorem sortByScoreDesc_filter_eq (l : List Document) (s : Rat) :
    (sortByScoreDesc l).filter (fun d => d.score == s) = l.filter (fun d => d.score == s) := by
  set p : Document → Bool := fun d => d.score == s with hp
  have hall : ∀ x ∈ l.filter p, p x := fun x hx => List.of_mem_filter hx
  have hpair : (l.filter p).Pairwise scoreGE := by
    refine List.pairwise_of_forall_mem_list ?_
    intro a ha b hb
    have ha' : a.score = s := by simpa [hp] using List.of_mem_filter ha
    have hb' : b.score = s := by simpa [hp] using List.of_mem_filter hb
    show b.score ≤ a.score
    rw [ha', hb']
  have h1 : List.Sublist (l.filter p) (sortByScoreDesc l) :=
    List.sublist_insertionSort hpair (List.filter_sublist l)
  have h2 : List.Sublist (l.filter p) ((sortByScoreDesc l).filter p) := by
    have h3 := h1.filter p
    rwa [List.filter_eq_self.mpr hall] at h3
  have h4 : ((sortByScoreDesc l).filter p).Perm (l.filter p) := (sortByScoreDesc_perm l).filter p
  exact (h2.eq_of_length h4.length_eq.symm).symm

theorem deduplicateAux_subset : ∀ (l : List Document) (seen : List String) (d : Document),
    d ∈ deduplicateAux l seen → d ∈ l := by
  intro l
  induction l with
  | nil => intro seen d h; simp [deduplicateAux] at h
  | cons a rest ih =>
    intro seen d h
    simp only [deduplicateAux] at h
    by_cases hm : a.id ∈ seen
    · rw [if_pos hm] at h
      exact List.mem_cons_of_mem _ (ih _ _ h)
    · rw [if_neg hm] at h
      rcases List.mem_cons.mp h with h1 | h2
      · exact h1 ▸ List.mem_cons_self a rest
      · exact List.mem_cons_of_mem _ (ih _ _ h2)

theorem deduplicateAux_id_not_mem : ∀ (l : List Document) (seen : List String) (d : Document),
    d ∈ deduplicateAux l seen → d.id ∉ seen := by
  intro l
  induction l with
  | nil => intro seen d h; simp [deduplicateAux] at h
  | cons a rest ih =>
    intro seen d h
    simp only [deduplicateAux] at h
    by_cases hm : a.id ∈ seen
    · rw [if_pos hm] at h
      exact ih _ _ h
    · rw [if_neg hm] at h
      rcases List.mem_cons.mp h with h1 | h2
      · exact h1 ▸ hm
      · exact fun hc => ih _ _ h2 (List.mem_cons_of_mem _ hc)

theorem deduplicateAux_ids_nodup : ∀ (l : List Document) (seen : List String),
    ((deduplicateAux l seen).map Document.id).Nodup := by
  intro l
  induction l with
  | nil => intro seen; simp [deduplicateAux]
  | cons a rest ih =>
    intro seen
    simp only [deduplicateAux]
    by_cases hm : a.id ∈ seen
    · rw [if_pos hm]; exact ih _
    · rw [if_neg hm]
      rw [List.map_cons, List.nodup_cons]
      refine ⟨?_, ih _⟩
      intro hc
      rcases List.mem_map.mp hc with ⟨d, hd, hid⟩
      exact deduplicateAux_id_not_mem _ _ _ hd (hid ▸ List.mem_cons_self _ _)

/-- Deduplication keeps, for every id, exactly the first document carrying
that id. -/
theorem deduplicateAux_find? (i : String) : ∀ (l : List Document) (seen : List String), i ∉ seen →
    (deduplicateAux l seen).find? (fun d => d.id == i) = l.find? (fun d => d.id == i) := by
  intro l
  induction l with
  | nil => intro seen _; rfl
  | cons a rest ih =>
    intro seen hi
    simp only [deduplicateAux]
    by_cases hm : a.id ∈ seen
    · rw [if_pos hm]
      have hne : (a.id == i) = false := by
        simp only [beq_eq_false_iff_ne, ne_eq]
        rintro rfl
        exact hi hm
      rw [ih _ hi, List.find?_cons, hne]
    · rw [if_neg hm]
      by_cases hai : a.id = i
      · rw [List.find?_cons, List.find?_cons]
        have : (a.id == i) = true := by simp [hai]
        rw [this]
      · have hne : (a.id == i) = false := by simp [hai]
        rw [List.find?_cons, List.find?_cons, hne]
        refine ih _ ?_
        simp only [List.mem_cons, not_or]
        exact ⟨fun hc => hai hc.symm, hi⟩

theorem rerank_results_none_eq (query : String) (documents : List Document) :
    rerank_results none query documents = documents := by
  unfold rerank_results
  split <;> rfl

theorem rerank_results_some_eq (f : String → String → Rat) (query : String)
    (documents : List Document) (h : documents ≠ []) :
    rerank_results (some f) query documents =
      sortByScoreDesc (documents.map (updateScore f query)) := by
  unfold rerank_results
  rw [if_neg (by simpa [List.isEmpty_iff] using h)]

theorem mem_rerank_results_some {f : String → String → Rat} {query : String}
    {documents : List Document} {d : Document}
    (h : d ∈ rerank_results (some f) query documents) :
    d.score = f query d.content := by
  by_cases he : documents = []
  · subst he
    simp [rerank_results] at h
  · rw [rerank_results_some_eq f query documents he] at h
    obtain ⟨e, _, rfl⟩ := List.mem_map.mp ((sortByScoreDesc_perm _).subset h)
    rfl

theorem rerank_results_ids_perm (ce : Option (String → String → Rat)) (query : String)
    (documents : List Document) :
    ((rerank_results ce query documents).map Document.id).Perm (documents.map Document.id) := by
  cases ce with
  | none => rw [rerank_results_none_eq]
  | some f =>
    by_cases he : documents = []
    · subst he; simp [rerank_results]
    · rw [rerank_results_some_eq f query documents he]
      have h1 := (sortByScoreDesc_perm (documents.map (updateScore f query))).map Document.id
      have h2 : (documents.map (updateScore f query)).map Document.id =
          documents.map Document.id := by
        rw [List.map_map]
        rfl
      exact h2 ▸ h1

/-- Claim C1: for every query, every `k ≥ 0` and all stored documents,
`hybrid_search` returns at most `k` documents whose ids are pairwise
distinct. -/
theorem hybrid_search_at_most_k_distinct_ids (cols : List Collection)
    (ce : Option (String → String → Rat)) (query : String) (k : Nat) :
    (hybrid_search cols ce query k).length ≤ k ∧
    ((hybrid_search cols ce query k).map Document.id).Nodup := by
  unfold hybrid_search
  constructor
  · exact List.length_take_le _ _
  · have hu := deduplicateAux_ids_nodup (denseStage cols ++ keyword_search cols query k) []
    have hperm := rerank_results_ids_perm ce query
      (deduplicate_results (denseStage cols ++ keyword_search cols query k))
    have hr : ((rerank_results ce query
        (deduplicate_results (denseStage cols ++ keyword_search cols query k))).map
          Document.id).Nodup :=
      hperm.nodup_iff.mpr hu
    rw [List.map_take]
    exact List.Nodup.sublist (List.take_sublist _ _) hr

/-- Claim C3: when the cross-encoder raises, `_rerank_results` returns exactly the
input list, and the empty input list is returned as the empty list with no
error for any cross-encoder state. -/
theorem rerank_results_failure_and_empty (ce : Option (String → String → Rat))
    (query : String) (documents : List Document) :
    rerank_results none query documents = documents ∧
    rerank_results ce query ([] : List Document) = [] := by
  refine ⟨rerank_results_none_eq query documents, ?_⟩
  cases ce <;> rfl

/-- Claim C4: on cross-encoder success over a non-empty input, `_rerank_results`
returns a permutation of the input in which every score was overwritten with
the cross-encoder value for `(query, content)` — the prior retrieval score is
discarded — sorted by descending score, stably (the subsequence at any fixed
score keeps the input order). -/
theorem rerank_results_overwrite_sort (f : String → String → Rat) (query : String)
    (documents : List Document) (hne : documents ≠ []) :
    (rerank_results (some f) query documents).Perm
      (documents.map (updateScore f query)) ∧
    (∀ d ∈ rerank_results (some f) query documents, d.score = f query d.content) ∧
    List.Sorted scoreGE (rerank_results (some f) query documents) ∧
    ∀ s : Rat, (rerank_results (some f) query documents).filter (fun d => d.score == s) =
      (documents.map (updateScore f query)).filter (fun d => d.score == s) := by
  rw [rerank_results_some_eq f query documents hne]
  refine ⟨sortByScoreDesc_perm _, ?_, sortByScoreDesc_sorted _, ?_⟩
  · intro d hd
    obtain ⟨e, _, rfl⟩ := List.mem_map.mp ((sortByScoreDesc_perm _).subset hd)
    rfl
  · intro s
    exact sortByScoreDesc_filter_eq _ s

/-- Witness for C4 at a concrete one-document input. -/
theorem rerank_results_overwrite_sort_witness :
    c4docs ≠ [] ∧
    (rerank_results (some c4f) "q" c4docs).Perm (c4docs.map (updateScore c4f "q")) :=
  ⟨by simp [c4docs], (rerank_results_overwrite_sort c4f "q" c4docs (by simp [c4docs])).1⟩

/-- Claim C5: the lexical score is the Jaccard similarity of the
whitespace-tokenized, lower-cased term sets; it lies in `[0, 1]`, is `0`
when the union of the term sets is empty, and takes the stated values on
the three concrete test pairs. -/
theorem keywordScore_jaccard_bounds (query doc : String) :
    0 ≤ keywordScore query doc ∧ keywordScore query doc ≤ 1 ∧
    (termSet query ∪ termSet doc = ∅ → keywordScore query doc = 0) ∧
    keywordScore "abc def" "abc def" = 1 ∧
    keywordScore "" "abc" = 0 ∧
    keywordScore "a b" "c d" = 0 := by
  refine ⟨?_, ?_, ?_, ?_, ?_, ?_⟩
  · unfold keywordScore
    split
    · exact le_refl 0
    · positivity
  · unfold keywordScore
    split
    · exact zero_le_one
    · rename_i h
      have hpos : (0 : Rat) < ((termSet query ∪ termSet doc).card : Rat) := by
        exact_mod_cast Finset.card_pos.mpr (Finset.nonempty_iff_ne_empty.mpr h)
      rw [div_le_one hpos]
      exact_mod_cast Finset.card_le_card Finset.inter_subset_union
  · intro h
    unfold keywordScore
    rw [if_pos h]
  · have hne : ¬(termSet "abc def" ∪ termSet "abc def" = ∅) := by decide
    have hi : (termSet "abc def" ∩ termSet "abc def").card = 2 := by decide
    have hu : (termSet "abc def" ∪ termSet "abc def").card = 2 := by decide
    unfold keywordScore
    rw [if_neg hne, hi, hu]
    norm_num
  · have hne : ¬(termSet "" ∪ termSet "abc" = ∅) := by decide
    have hi : (termSet "" ∩ termSet "abc").card = 0 := by decide
    have hu : (termSet "" ∪ termSet "abc").card = 1 := by decide
    unfold keywordScore
    rw [if_neg hne, hi, hu]
    norm_num
  · have hne : ¬(termSet "a b" ∪ termSet "c d" = ∅) := by decide
    have hi : (termSet "a b" ∩ termSet "c d").card = 0 := by decide
    have hu : (termSet "a b" ∪ termSet "c d").card = 4 := by decide
    unfold keywordScore
    rw [if_neg hne, hi, hu]
    norm_num

/-- Witness for C5: the empty-union hypothesis holds for two empty strings,
where the score is 0. -/
theorem keywordScore_jaccard_bounds_witness :
    termSet "" ∪ termSet "" = ∅ ∧ keywordScore "" "" = 0 :=
  ⟨by decide, (keywordScore_jaccard_bounds "" "").2.2.1 (by decide)⟩

/-- Claim C6: deduplication keeps the first occurrence of each id, and dense
results precede lexical results in the concatenated candidate list, so for
any id found by the dense stage the dense-derived copy is the one in the
deduplicated list fed to re-ranking. -/
theorem dedup_prefers_dense_copy (cols : List Collection) (query : String) (k : Nat)
    (i : String) (h : ∃ d ∈ denseStage cols, d.id = i) :
    (deduplicate_results (denseStage cols ++ keyword_search cols query k)).find?
        (fun d => d.id == i) =
      (denseStage cols).find? (fun d => d.id == i) ∧
    ((deduplicate_results (denseStage cols ++ keyword_search cols query k)).find?
        (fun d => d.id == i)).isSome := by
  have hsome : ((denseStage cols).find? (fun d => d.id == i)).isSome := by
    rw [List.find?_isSome]
    obtain ⟨d, hd, hid⟩ := h
    exact ⟨d, hd, by simp [hid]⟩
  have heq : (deduplicate_results (denseStage cols ++ keyword_search cols query k)).find?
      (fun d => d.id == i) = (denseStage cols).find? (fun d => d.id == i) := by
    unfold deduplicate_results
    rw [deduplicateAux_find? i _ [] (List.not_mem_nil i), List.find?_append,
      Option.or_of_isSome hsome]
  exact ⟨heq, heq ▸ hsome⟩

/-- Witness for C6 at a one-collection input whose dense stage returns the
id `d1`. -/
theorem dedup_prefers_dense_copy_witness :
    (deduplicate_results (denseStage c6cols ++ keyword_search c6cols "q" 5)).find?
        (fun d => d.id == "d1") =
      (denseStage c6cols).find? (fun d => d.id == "d1") ∧
    ((deduplicate_results (denseStage c6cols ++ keyword_search c6cols "q" 5)).find?
        (fun d => d.id == "d1")).isSome :=
  dedup_prefers_dense_copy c6cols "q" 5 "d1" (by decide)

theorem lexicalCandidates_pos : ∀ (cols : List Collection) (query : String) (d : Document),
    d ∈ lexicalCandidates cols query → 0 < d.score := by
  intro cols query
  induction cols with
  | nil => intro d h; simp [lexicalCandidates, collectAll] at h
  | cons c cs ih =>
    intro d h
    simp only [lexicalCandidates, collectAll] at h
    rcases List.mem_append.mp h with h1 | h1
    · cases hco : c.getAllOutcome with
      | none => rw [hco] at h1; simp at h1
      | some ds =>
        rw [hco] at h1
        dsimp only at h1
        have h2 := List.of_mem_filter h1
        exact of_decide_eq_true h2
    · exact ih d h1

/-- Claim C7: the lexical stage only admits documents with strictly positive
score, and returns the globally top-`k` of the candidates of all collections
combined, sorted by descending score: the result is sorted, has at most `k`
entries, and the remaining candidates all score no higher than any returned
document. -/
theorem keyword_search_global_topk (cols : List Collection) (query : String) (k : Nat) :
    (∀ d ∈ lexicalCandidates cols query, 0 < d.score) ∧
    (∀ d ∈ keyword_search cols query k, 0 < d.score) ∧
    List.Sorted scoreGE (keyword_search cols query k) ∧
    (keyword_search cols query k).length ≤ k ∧
    ∃ rest, (lexicalCandidates cols query).Perm (keyword_search cols query k ++ rest) ∧
      ∀ a ∈ keyword_search cols query k, ∀ b ∈ rest, b.score ≤ a.score := by
  refine ⟨fun d hd => lexicalCandidates_pos cols query d hd, ?_, ?_, ?_, ?_⟩
  · intro d hd
    have h1 : d ∈ sortByScoreDesc (lexicalCandidates cols query) := List.mem_of_mem_take hd
    exact lexicalCandidates_pos cols query d ((sortByScoreDesc_perm _).subset h1)
  · exact List.Pairwise.sublist (List.take_sublist _ _) (sortByScoreDesc_sorted _)
  · exact List.length_take_le _ _
  · refine ⟨(sortByScoreDesc (lexicalCandidates cols query)).drop k, ?_, ?_⟩
    · have h1 : keyword_search cols query k ++
          (sortByScoreDesc (lexicalCandidates cols query)).drop k =
          sortByScoreDesc (lexicalCandidates cols query) :=
        List.take_append_drop k _
      rw [h1]
      exact (sortByScoreDesc_perm _).symm
    · intro a ha b hb
      exact List.Sorted.rel_of_mem_take_of_mem_drop (sortByScoreDesc_sorted _) ha hb

theorem c7score : keywordScore "shall" "ADGM shall" = 1 / 2 := by
  have hne : ¬(termSet "shall" ∪ termSet "ADGM shall" = ∅) := by decide
  have hi : (termSet "shall" ∩ termSet "ADGM shall").card = 1 := by decide
  have hu : (termSet "shall" ∪ termSet "ADGM shall").card = 2 := by decide
  unfold keywordScore
  rw [if_neg hne, hi, hu]
  norm_num

theorem c7lex : lexicalCandidates c7cols "shall" = [⟨"d1", "ADGM shall", [], 1 / 2⟩] := by
  have hpos : (0 : Rat) < 1 / 2 := by norm_num
  simp [lexicalCandidates, collectAll, c7cols, List.filter, c7score, hpos]

/-- Witness for C7: the concrete lexical candidate for query `"shall"` has a
strictly positive score. -/
theorem keyword_search_global_topk_witness :
    (0 : Rat) < (⟨"d1", "ADGM shall", [], 1 / 2⟩ : Document).score :=
  (keyword_search_global_topk c7cols "shall" 5).1 _ (by simp [c7lex])

/-- Claim C2 counterexample: in the validation pipeline with an expansion
service returning `"extra"`, the document retrieved for type `"X"` carries
the cross-encoder score for the expanded query (7), not the score for the
original, non-expanded query (3): re-ranking does not use the original
query. -/
theorem rerank_query_counterexample :
    (validateRetrieved c2exp c2cols (some c2ce) "X").map Document.score = [7] ∧
    c2ce (validationQuery "X") "c" = 3 ∧ (7 : Rat) ≠ 3 := by
  refine ⟨by decide, by decide, by decide⟩

/-- Claim C2 (amended): in the validation pipeline the re-ranking stage
scores each candidate against the query string passed to `hybrid_search` —
the expanded query, i.e. the same query used for retrieval — not the
original non-expanded query. -/
theorem rerank_uses_retrieval_query (expSvc : String → Option String)
    (cols : List Collection) (f : String → String → Rat) (dty : String) :
    ∀ d ∈ validateRetrieved expSvc cols (some f) dty,
      d.score = f (query_expansion expSvc (validationQuery dty)) d.content := by
  intro d hd
  unfold validateRetrieved hybrid_search at hd
  exact mem_rerank_results_some (List.mem_of_mem_take hd)

/-- Witness for the amended C2 at the concrete counterexample input. -/
theorem rerank_uses_retrieval_query_witness :
    (⟨"d1", "c", [], 7⟩ : Document).score =
      c2ce (query_expansion c2exp (validationQuery "X"))
        (⟨"d1", "c", [], 7⟩ : Document).content :=
  rerank_uses_retrieval_query c2exp c2cols c2ce "X" ⟨"d1", "c", [], 7⟩ (by decide)

theorem collectAll_append (f : Collection → List Document) :
    ∀ (l1 l2 : List Collection), collectAll f (l1 ++ l2) = collectAll f l1 ++ collectAll f l2 := by
  intro l1 l2
  induction l1 with
  | nil => rfl
  | cons c cs ih => simp [collectAll, ih]

theorem collectAll_eq_nil (f : Collection → List Document) :
    ∀ (cols : List Collection), (∀ c ∈ cols, f c = []) → collectAll f cols = [] := by
  intro cols
  induction cols with
  | nil => intro _; rfl
  | cons c cs ih =>
    intro h
    simp only [collectAll]
    rw [h c (List.mem_cons_self _ _), ih fun x hx => h x (List.mem_cons_of_mem _ hx)]
    rfl

/-- Claim C8: a collection whose dense query and full scan raise behaves
exactly like a collection yielding zero results, and when every collection
yields nothing (dense or lexical, by failure or emptiness) `hybrid_search`
returns the empty list rather than raising. -/
theorem failing_collection_contributes_nothing :
    (∀ (pre post : List Collection) (ce : Option (String → String → Rat))
        (query : String) (k : Nat),
      hybrid_search (pre ++ (⟨none, none⟩ : Collection) :: post) ce query k =
        hybrid_search (pre ++ (⟨some [], some []⟩ : Collection) :: post) ce query k) ∧
    (∀ (cols : List Collection) (ce : Option (String → String → Rat))
        (query : String) (k : Nat),
      (∀ c ∈ cols, (c.denseOutcome = none ∨ c.denseOutcome = some []) ∧
        (c.getAllOutcome = none ∨ c.getAllOutcome = some [])) →
      hybrid_search cols ce query k = []) := by
  constructor
  · intro pre post ce query k
    have hd : denseStage (pre ++ (⟨none, none⟩ : Collection) :: post) =
        denseStage (pre ++ (⟨some [], some []⟩ : Collection) :: post) := by
      unfold denseStage
      rw [collectAll_append, collectAll_append]
      simp [collectAll]
    have hl : lexicalCandidates (pre ++ (⟨none, none⟩ : Collection) :: post) query =
        lexicalCandidates (pre ++ (⟨some [], some []⟩ : Collection) :: post) query := by
      unfold lexicalCandidates
      rw [collectAll_append, collectAll_append]
      simp [collectAll]
    unfold hybrid_search keyword_search
    rw [hd, hl]
  · intro cols ce query k h
    have hd : denseStage cols = [] := by
      refine collectAll_eq_nil _ cols fun c hc => ?_
      rcases (h c hc).1 with h1 | h1 <;> simp [h1]
    have hl : lexicalCandidates cols query = [] := by
      refine collectAll_eq_nil _ cols fun c hc => ?_
      rcases (h c hc).2 with h1 | h1 <;> simp [h1]
    unfold hybrid_search keyword_search
    rw [hd, hl]
    simp [sortByScoreDesc, deduplicate_results, deduplicateAux, rerank_results,
      List.insertionSort]

/-- Witness for C8: an empty corpus made of one failing collection yields the
empty result list. -/
theorem failing_collection_contributes_nothing_witness :
    hybrid_search [(⟨none, none⟩ : Collection)] none "any query" 5 = [] :=
  failing_collection_contributes_nothing.2 [⟨none, none⟩] none "any query" 5 (by decide)

/-- Claim C9: a failed reasoning call is answered locally by the fallback
verdict — status `review_required`, confidence 0, one generic issue and one
generic recommendation — and a failed expansion call returns the query
unchanged, while a successful one returns the query, whitespace, and the
stripped generated terms. -/
theorem reasoning_and_expansion_fallbacks :
    (∀ (svc : String → Option String) (query : String), svc query = none →
      query_expansion svc query = query) ∧
    (∀ (svc : String → Option String) (query resp : String), svc query = some resp →
      query_expansion svc query = query ++ " " ++ stripStr resp) ∧
    (∀ (svc : String → String → Option Verdict) (query context : String),
      svc query context = none →
      chain_of_thought_reasoning svc query context = fallbackVerdict) ∧
    fallbackVerdict.compliance_status = some "review_required" ∧
    fallbackVerdict.confidence = some 0 ∧
    fallbackVerdict.issues.map List.length = some 1 ∧
    fallbackVerdict.recommendations.map List.length = some 1 := by
  refine ⟨?_, ?_, ?_, rfl, rfl, rfl, rfl⟩
  · intro svc query h
    unfold query_expansion
    rw [h]
  · intro svc query resp h
    unfold query_expansion
    rw [h]
  · intro svc query context h
    unfold chain_of_thought_reasoning
    rw [h]

/-- Witness for C9 at concrete failing and succeeding services. -/
theorem reasoning_and_expansion_fallbacks_witness :
    query_expansion (fun _ => none) "q" = "q" ∧
    query_expansion (fun _ => some "terms") "q" = "q" ++ " " ++ stripStr "terms" ∧
    chain_of_thought_reasoning (fun _ _ => none) "q" "ctx" = fallbackVerdict :=
  ⟨reasoning_and_expansion_fallbacks.1 _ "q" rfl,
   reasoning_and_expansion_fallbacks.2.1 _ "q" "terms" rfl,
   reasoning_and_expansion_fallbacks.2.2.1 _ "q" "ctx" rfl⟩

/-- Claim C10: the fallback verdict has no `applicable_regulations` entry,
and `validate_document` substitutes the empty list for it — defaulting
`compliance_status` to `review_required` and `confidence` to 0 for any
missing key, whether the verdict is the failure fallback or a parsed verdict
missing those keys. -/
theorem fallback_omits_applicable_regulations :
    (∀ (svc : String → String → Option Verdict) (query context : String),
      svc query context = none →
      (chain_of_thought_reasoning svc query context).applicable_regulations = none) ∧
    (∀ (expSvc : String → Option String) (cols : List Collection)
        (ce : Option (String → String → Rat)) (dtext dtype : String),
      (validate_document expSvc (fun _ _ => none) cols ce dtext dtype).applicable_regulations
          = [] ∧
      (validate_document expSvc (fun _ _ => none) cols ce dtext dtype).compliance_status =
        "review_required" ∧
      (validate_document expSvc (fun _ _ => none) cols ce dtext dtype).confidence = 0) ∧
    (∀ (expSvc : String → Option String) (cols : List Collection)
        (ce : Option (String → String → Rat)) (dtext dtype : String) (v : Verdict),
      v.applicable_regulations = none → v.compliance_status = none → v.confidence = none →
      (validate_document expSvc (fun _ _ => some v) cols ce dtext dtype).applicable_regulations
          = [] ∧
      (validate_document expSvc (fun _ _ => some v) cols ce dtext dtype).compliance_status =
        "review_required" ∧
      (validate_document expSvc (fun _ _ => some v) cols ce dtext dtype).confidence = 0) := by
  refine ⟨?_, ?_, ?_⟩
  · intro svc query context h
    unfold chain_of_thought_reasoning
    rw [h]
    rfl
  · intro expSvc cols ce dtext dtype
    refine ⟨rfl, rfl, rfl⟩
  · intro expSvc cols ce dtext dtype v h1 h2 h3
    refine ⟨?_, ?_, ?_⟩ <;>
      simp [validate_document, chain_of_thought_reasoning, h1, h2, h3]

/-- Witness for C10 at a concrete failing service and a concrete verdict
with the keys missing. -/
theorem fallback_omits_applicable_regulations_witness :
    (chain_of_thought_reasoning (fun _ _ => none) "q" "ctx").applicable_regulations = none ∧
    (validate_document (fun _ => none) (fun _ _ => some c10v) [] none
        "t" "d").applicable_regulations = [] :=
  ⟨fallback_omits_applicable_regulations.1 _ "q" "ctx" rfl,
   (fallback_omits_applicable_regulations.2.2 (fun _ => none) [] none "t" "d" c10v
      rfl rfl rfl).1⟩

end AdvancedRAG
